import Mathlib

/-!
# Verification of the Strike frame-scheduling and viewport-tracking core

Shallow embedding of the Strike repository's timing core
(`src/timing/ticker.ts`, `src/timing/actions.ts`) and camera viewport
(`src/viewport/cameraViewport.ts`, `src/actor/spritesheet.ts`), together with
theorems settling the specification's claims about them.

Modelling conventions:
* JavaScript numbers are modelled as `ℚ` (all operations the embedded code
  performs on them — addition, subtraction, multiplication, division by a
  nonzero value, `Math.floor`, `Math.min`, `Math.max`, comparisons — are exact
  on the rational values arising here, so no floating-point rounding is lost
  for the inputs of interest).
* The JavaScript `| 0` operator (ToInt32) is `toInt32` below.
* User-supplied callbacks (`() => void` closures that may reenter the
  scheduler) are deeply embedded as a small command language (`Fn` for action
  callbacks, `Beh` for clock subscribers) whose interpreter performs exactly
  the reentrant operations the real closures could perform on the scheduler:
  scheduling, cancelling, subscribing, unsubscribing, and throwing.
* JavaScript object identity of scheduled actions and subscriber functions is
  modelled with numeric ids; mutation of a shared object is modelled by
  updating every live occurrence of its id.
-/

namespace Strike

/-- Truncation of a rational toward zero (the integer part of a JS number). -/
def ratTrunc (q : ℚ) : ℤ :=
  if 0 ≤ q then ⌊q⌋ else ⌈q⌉

/-- JavaScript `x | 0` (ToInt32): truncate toward zero, wrap into signed
32-bit range. -/
def toInt32 (q : ℚ) : ℤ :=
  ((ratTrunc q + 2 ^ 31) % 2 ^ 32) - 2 ^ 31

/-- JavaScript `%` on numbers (fmod, sign of the dividend):
`a % b = a - b * trunc(a / b)` for nonzero `b`. -/
def jsMod (a b : ℚ) : ℚ :=
  a - b * (ratTrunc (a / b) : ℚ)

/-! ## Action channel (`src/timing/actions.ts`)

The command language `Fn` deeply embeds the action callbacks: a callback may
do nothing, cancel actions of its channel, or schedule further periodic /
one-shot actions on it (the reentrant operations available through the
captured `ActionChannel`). -/

/-- Deep embedding of an action callback's effect on its own channel. -/
inductive Fn : Type where
  /-- A callback that does not touch the channel. -/
  | noop : Fn
  /-- `ch.cancel(name?)`. -/
  | cancel : Option String → Fn
  /-- `ch.every(interval, fn, { name, immediate, catchUp })`.
  Arguments: interval, callback, name, immediate, catchUp. -/
  | every : ℚ → Fn → Option String → Bool → Bool → Fn
  /-- `ch.once(delay, fn, { name })`. Arguments: delay, callback, name. -/
  | once : ℚ → Fn → Option String → Fn
  /-- Sequencing of two effects. -/
  | seq : Fn → Fn → Fn
deriving DecidableEq, Repr

/-- The `kind` tag plus kind-specific fields of a `Scheduled` item:
`PeriodicAction` carries `interval` and `catchUp`, `OnceAction` carries
`delay`. -/
inductive SchedKind : Type where
  | every : ℚ → Bool → SchedKind
  | once : ℚ → SchedKind
deriving DecidableEq, Repr

/-- One scheduled item of an `ActionChannel` (`Scheduled` in the source).
`id` models JavaScript object identity (the source mutates the shared
objects in place; ids let the model mirror that sharing). -/
structure Scheduled : Type where
  id : Nat
  name : Option String
  kind : SchedKind
  elapsed : ℚ
  fn : Fn
deriving DecidableEq, Repr

/-- The private state of an `ActionChannel`: the `actions` array, the
`running` flag, and a fresh-id counter (model artifact standing for object
allocation). The `unsub` handle is determined by `running` and not needed by
the claims. -/
structure ChanState : Type where
  actions : List Scheduled
  running : Bool
  nextId : Nat
deriving DecidableEq, Repr

/-- `a.elapsed := e` on the shared object with identity `id`: every live
occurrence in the array observes the write. -/
def setElapsed (id : Nat) (e : ℚ) (l : List Scheduled) : List Scheduled :=
  l.map fun b => if b.id = id then { b with elapsed := e } else b

/-- `ActionChannel.cancel(name?)`. The source tests `if (name)` — JavaScript
truthiness — so the filtering branch runs only for a non-empty string; an
empty string (or no argument) clears the whole array. The filter keeps every
action whose `name !== name`. -/
def cancelOp (name : Option String) (st : ChanState) : ChanState :=
  match name with
  | some s =>
      if s ≠ "" then { st with actions := st.actions.filter fun a => a.name ≠ some s }
      else { st with actions := [] }
  | none => { st with actions := [] }

/-- Interpreter for action callbacks. Returns the updated channel state and
the list of ids of actions whose callback body ran (the fire log).
`every` with `immediate` set fires the freshly created item once at
registration time, exactly as `ActionChannel.every` does. -/
def interp : Fn → ChanState → ChanState × List Nat
  | .noop, st => (st, [])
  | .cancel name, st => (cancelOp name st, [])
  | .every interval f name immediate catchUp, st =>
      let item : Scheduled :=
        { id := st.nextId, name := name,
          kind := .every (max 0 ((toInt32 interval : ℤ) : ℚ)) catchUp,
          elapsed := 0, fn := f }
      let st1 : ChanState :=
        { st with actions := st.actions ++ [item], nextId := st.nextId + 1 }
      if immediate then
        let r := interp f st1
        (r.1, item.id :: r.2)
      else (st1, [])
  | .once delay f name, st =>
      let item : Scheduled :=
        { id := st.nextId, name := name,
          kind := .once (max 0 ((toInt32 delay : ℤ) : ℚ)),
          elapsed := 0, fn := f }
      ({ st with actions := st.actions ++ [item], nextId := st.nextId + 1 }, [])
  | .seq a b, st =>
      let r1 := interp a st
      let r2 := interp b r1.1
      (r2.1, r1.2 ++ r2.2)

/-- Fire the callback `f` of the action with identity `id` exactly `k` times
sequentially (the `while (n-- > 0)` catch-up loop). -/
def fireN : Nat → Fn → Nat → ChanState → ChanState × List Nat
  | 0, _, _, st => (st, [])
  | k + 1, f, id, st =>
      let r1 := interp f st
      let r2 := fireN k f id r1.1
      (r2.1, (id :: r1.2) ++ r2.2)

/-- Remove the first array entry with identity `id`
(`indexOf` + `splice(idx, 1)`; no-op when absent, as `indexOf` returns -1). -/
def removeFirstId (id : Nat) (l : List Scheduled) : List Scheduled :=
  match l with
  | [] => []
  | a :: rest => if a.id = id then rest else a :: removeFirstId id rest

/-- The body of `ActionChannel.step`'s loop for one snapshot item `a`:
`a.elapsed += dt`, then the periodic / one-shot dispatch. The snapshot item
carries the object's field values, which are still current when it is
processed (no other iteration writes this object's fields). -/
def processOne (dt : ℚ) (a : Scheduled) (st : ChanState) : ChanState × List Nat :=
  let e := a.elapsed + dt
  let st := { st with actions := setElapsed a.id e st.actions }
  match a.kind with
  | .every interval catchUp =>
      if interval ≤ 0 then
        -- Edge case: 0 interval -> run every frame
        let r := interp a.fn st
        (r.1, a.id :: r.2)
      else if e ≥ interval then
        if catchUp then
          -- Fire as many times as intervals elapsed
          let n : ℤ := ⌊e / interval⌋
          let st := { st with actions := setElapsed a.id (e - n * interval) st.actions }
          fireN n.toNat a.fn a.id st
        else
          -- Fire once, keep leftover elapsed time
          let st := { st with actions := setElapsed a.id (e - interval) st.actions }
          let r := interp a.fn st
          (r.1, a.id :: r.2)
      else (st, [])
  | .once delay =>
      if e ≥ delay then
        let r := interp a.fn st
        -- remove this once-action
        (({ r.1 with actions := removeFirstId a.id r.1.actions }), a.id :: r.2)
      else (st, [])

/-- Iterate `ActionChannel.step`'s loop over the snapshot list. -/
def stepFold (dt : ℚ) : List Scheduled → ChanState → ChanState × List Nat
  | [], st => (st, [])
  | a :: rest, st =>
      let r1 := processOne dt a st
      let r2 := stepFold dt rest r1.1
      (r2.1, r1.2 ++ r2.2)

/-- `ActionChannel.step(dt)`: early-out when stopped or empty, otherwise
iterate over a copy (`this.actions.slice()`) of the actions present at the
start of the tick. -/
def step (dt : ℚ) (st : ChanState) : ChanState × List Nat :=
  if st.running = false ∨ st.actions = [] then (st, [])
  else stepFold dt st.actions st

/-- A callback that never registers an action with the `immediate` flag
(an immediate registration is the one way a callback can synchronously run
a freshly added action's body during the current tick, outside the tick's
own accounting). -/
def noImm : Fn → Bool
  | .noop => true
  | .cancel _ => true
  | .every _ f _ immediate _ => !immediate && noImm f
  | .once _ f _ => noImm f
  | .seq a b => noImm a && noImm b

/-! ## Global RAF ticker — the Clock (`src/timing/ticker.ts`)

Subscribers are identified by numeric handles standing for JavaScript
function object identity (`listeners` is a `Set<TickHandler>`, so re-adding
the same function object is a no-op). Pending `requestAnimationFrame`
callbacks are counted by `pending`; `rafSet` models whether the module's
`rafId` variable currently holds an id (non-null). Subscriber behaviors are
deeply embedded as `Beh`, covering the reentrant operations a tick handler
can perform on the ticker: subscribing new handlers, calling captured
unsubscribe closures, throwing, and sequencing. -/

/-- Deep embedding of a clock subscriber callback's effect on the ticker. -/
inductive Beh : Type where
  /-- A callback with no effect on the ticker. -/
  | noop : Beh
  /-- A callback that throws. -/
  | throwErr : Beh
  /-- `onTick(handler)` with a freshly allocated handler running the given
  behavior. -/
  | subscribe : Beh → Beh
  /-- Invoke a captured unsubscribe closure: `listeners.delete(handler)` for
  the handler with the given identity. -/
  | unsub : Nat → Beh
  /-- Sequencing; a throw in the first part skips the second. -/
  | seq : Beh → Beh → Beh
deriving DecidableEq, Repr

/-- Module-level state of `ticker.ts`. `behs` binds each handler identity to
its behavior (a model artifact: in the source the behavior is the function's
own body). `nextH` allocates fresh handler identities. -/
structure ClockState : Type where
  listeners : List Nat
  behs : List (Nat × Beh)
  rafSet : Bool
  pending : Nat
  lastTs : Option ℚ
  accTime : ℚ
  nextH : Nat
deriving DecidableEq, Repr

/-- The initial module state: no listeners, `rafId = null`, `lastTs = null`,
`accTime = 0`. -/
def clockInit : ClockState :=
  { listeners := [], behs := [], rafSet := false, pending := 0,
    lastTs := none, accTime := 0, nextH := 0 }

/-- `rafId = requestAnimationFrame(loop)`: one more callback becomes queued
in the host and the module variable holds its id. -/
def scheduleRaf (st : ClockState) : ClockState :=
  { st with pending := st.pending + 1, rafSet := true }

/-- `onTick(handler)`: `listeners.add(handler)` (a `Set` — no change when the
handler is already present, insertion order kept), then schedule a frame if
`rafId == null`. -/
def onTickOp (h : Nat) (b : Beh) (st : ClockState) : ClockState :=
  let st1 : ClockState :=
    { st with
      listeners := if h ∈ st.listeners then st.listeners else st.listeners ++ [h],
      behs := if (st.behs.lookup h).isSome then st.behs else st.behs ++ [(h, b)] }
  if st1.rafSet = false then scheduleRaf st1 else st1

/-- The unsubscribe closure returned by `onTick`:
`listeners.delete(handler)`. -/
def unsubOp (h : Nat) (st : ClockState) : ClockState :=
  { st with listeners := st.listeners.erase h }

/-- One invocation event delivered to a subscriber: which handler ran and
the `(dt, time)` arguments it received. -/
structure Ev : Type where
  h : Nat
  dt : ℚ
  acc : ℚ
deriving DecidableEq, Repr

/-- Run a subscriber behavior. Returns the updated state and whether the
behavior threw (an uncaught exception propagating out of it). Effects
performed before a throw persist, as in JavaScript. -/
def interpBeh : Beh → ClockState → ClockState × Bool
  | .noop, st => (st, false)
  | .throwErr, st => (st, true)
  | .subscribe b, st =>
      let h := st.nextH
      (onTickOp h b { st with nextH := h + 1 }, false)
  | .unsub h, st => (unsubOp h st, false)
  | .seq a b, st =>
      let r1 := interpBeh a st
      if r1.2 = true then (r1.1, true) else interpBeh b r1.1

/-- `fn(dt, accTime)`: record the invocation event and run the handler's
behavior (absent bindings behave as `noop`). -/
def invoke (h : Nat) (dt acc : ℚ) (st : ClockState) : ClockState × Bool × List Ev :=
  match st.behs.lookup h with
  | some b =>
      let r := interpBeh b st
      (r.1, r.2, [⟨h, dt, acc⟩])
  | none => (st, false, [⟨h, dt, acc⟩])

/-- `try { ... } catch (err) { /* swallow to keep loop alive */ }`: the state
reached so far is kept and the exception flag is cleared. -/
def jsTry (r : ClockState × Bool) : ClockState × Bool := (r.1, false)

/-- The `for (const fn of snapshot)` loop of `loop`, each call wrapped in
`try`/`catch`. An exception escaping an iteration (never, given the catch)
would abort the remaining iterations and propagate. -/
def loopFold (dt acc : ℚ) : List Nat → ClockState → ClockState × Bool × List Ev
  | [], st => (st, false, [])
  | h :: rest, st =>
      let r0 := invoke h dt acc st
      let r1 := jsTry (r0.1, r0.2.1)
      if r1.2 = true then (r1.1, true, r0.2.2)
      else
        let r2 := loopFold dt acc rest r1.1
        (r2.1, r2.2.1, r0.2.2 ++ r2.2.2)

/-- The RAF `loop(ts)` body: null out `rafId` (the queued callback being run
is consumed), compute the clamped delta, accumulate time, invoke a snapshot
(`Array.from(listeners)`) of the subscriber set, then either schedule the
next frame (listeners remain) or reset the timestamp baseline. Returns the
new state, whether an exception escaped the pulse, and the invocation
events. -/
def runPulse (ts : ℚ) (st : ClockState) : ClockState × Bool × List Ev :=
  let st := { st with pending := st.pending - 1, rafSet := false }
  let last := st.lastTs.getD ts
  let dt := min (ts - last) 100
  let st := { st with lastTs := some ts, accTime := st.accTime + dt }
  let r :=
    if st.listeners ≠ [] then loopFold dt st.accTime st.listeners st
    else (st, false, [])
  if r.1.listeners ≠ [] then (scheduleRaf r.1, r.2.1, r.2.2)
  else ({ r.1 with lastTs := none }, r.2.1, r.2.2)

/-- A sequence of host frame pulses delivered at the given timestamps,
collecting every invocation event. -/
def runPulses : List ℚ → ClockState → ClockState × List Ev
  | [], st => (st, [])
  | ts :: rest, st =>
      let r1 := runPulse ts st
      let r2 := runPulses rest r1.1
      (r2.1, r1.2.2 ++ r2.2)

/-- The operations the outside world can perform on the ticker module:
subscribing a handler, invoking a returned unsubscribe closure, and the host
delivering a frame pulse. -/
inductive ClockOp : Type where
  | subH : Nat → Beh → ClockOp
  | unsubH : Nat → ClockOp
  | pulse : ℚ → ClockOp
deriving DecidableEq, Repr

/-- Apply one external operation to the ticker state. -/
def runOp : ClockOp → ClockState → ClockState
  | .subH h b, st => onTickOp h b st
  | .unsubH h, st => unsubOp h st
  | .pulse ts, st => (runPulse ts st).1

/-- Apply a sequence of external operations. -/
def runTrace : List ClockOp → ClockState → ClockState
  | [], st => st
  | op :: rest, st => runTrace rest (runOp op st)

/-- The ticker states reachable from the initial module state by any
interleaving of subscriptions, unsubscriptions and host pulses. -/
inductive ClockReach : ClockState → Prop where
  | init : ClockReach clockInit
  | next : ∀ op st, ClockReach st → ClockReach (runOp op st)

/-! ## Sprite-sheet frame lookup (`src/actor/spritesheet.ts`) and camera
viewport (`src/viewport/cameraViewport.ts`)

`ensureFrameSize` may throw; fallible computations are embedded in
`Except String`. The source memoizes the inferred frame size back onto the
`meta` object and emits a `console.warn` on inexact inference; both are
observationally irrelevant to the computed rectangle and offsets and are
dropped. `baseSize` may in the source also be a thunk recomputed per call;
it is modelled by the size value it returns. -/

/-- `SheetMeta` (`src/types/core.ts`): sprite-sheet metadata. -/
structure SheetMeta : Type where
  frameSize : Option (ℚ × ℚ)
  frames : ℚ
  spacing : Option ℚ
  margin : Option ℚ
  imageSize : Option (ℚ × ℚ)
deriving DecidableEq, Repr

/-- `meta.frameSize && meta.frameSize[0] > 0 && meta.frameSize[1] > 0`. -/
def frameSizeValid (meta : SheetMeta) : Bool :=
  match meta.frameSize with
  | some fs => decide (0 < fs.1) && decide (0 < fs.2)
  | none => false

/-- `ensureFrameSize(meta)`: return a valid `frameSize`, or infer one from
`imageSize` and `frames` (single row), or throw. -/
def ensureFrameSize (meta : SheetMeta) : Except String (ℚ × ℚ) :=
  if frameSizeValid meta then .ok (meta.frameSize.getD (0, 0))
  else
    match meta.imageSize with
    | none => .error "sheet.frameSize missing and imageSize unavailable for inference"
    | some (imgW, imgH) =>
        let frames : ℤ := max 1 (toInt32 meta.frames)
        let spacing := (meta.spacing).getD 0
        let margin := (meta.margin).getD 0
        let totalSpacing := spacing * ((max 0 (frames - 1) : ℤ) : ℚ)
        let usableW := imgW - margin * 2 - totalSpacing
        let fw : ℚ := ((⌊usableW / (frames : ℚ)⌋ : ℤ) : ℚ)
        let fh := imgH - margin * 2
        .ok (fw, fh)

/-- `frameRect(meta, frame)`: source rectangle `(sx, sy, sw, sh)` of the
given frame index, wrapped into `[0 .. frames-1]` by
`((frame % frames) + frames) % frames` (JavaScript float modulo). -/
def frameRect (meta : SheetMeta) (frame : ℚ) : Except String (ℚ × ℚ × ℚ × ℚ) := do
  let frames : ℚ := ((max 1 (toInt32 meta.frames) : ℤ) : ℚ)
  let spacing := (meta.spacing).getD 0
  let margin := (meta.margin).getD 0
  let fs ← ensureFrameSize meta
  let f := jsMod (jsMod frame frames + frames) frames
  .ok (margin + f * (fs.1 + spacing), margin, fs.1, fs.2)

/-- Render anchor (`src/types/core.ts`). -/
inductive Anchor : Type where
  | topleft : Anchor
  | center : Anchor
deriving DecidableEq, Repr

/-- The actor fields read by the viewport: position, current frame
(`actor.state`) and the sheet metadata (`actor.sheet`). -/
structure ActorState : Type where
  x : ℚ
  y : ℚ
  frame : ℚ
deriving DecidableEq, Repr

/-- The backing actor as seen by the viewport. -/
structure Actor : Type where
  sheet : SheetMeta
  state : ActorState
deriving DecidableEq, Repr

/-- The `ViewModel` fields read by `CameraViewport` (draw-only fields such
as `z`, flips and visibility are not consulted by the viewport and are
omitted). -/
structure ViewModel : Type where
  actor : Actor
  scale : ℚ
  anchor : Anchor
deriving DecidableEq, Repr

/-- Camera follow mode. -/
inductive FollowMode : Type where
  | center : FollowMode
  | deadzone : FollowMode
  | none : FollowMode
deriving DecidableEq, Repr

/-- The state of a `CameraViewport`: configuration plus the stored world
offset `(camX, camY)`. -/
structure CamState : Type where
  follow : FollowMode
  deadzone : ℚ × ℚ
  padding : ℚ × ℚ
  baseSize : Option (ℚ × ℚ)
  camX : ℚ
  camY : ℚ
deriving DecidableEq, Repr

/-- `CameraViewport.getLogicalSize(view?)`: prefer the configured base size,
else derive from the view's frame (+ padding), else the 64×64 default. -/
def getLogicalSize (st : CamState) (view : Option ViewModel) : Except String (ℚ × ℚ) :=
  match st.baseSize with
  | some s => .ok s
  | none =>
      match view with
      | none => .ok (64, 64)
      | some v => do
          let r ← frameRect v.actor.sheet v.actor.state.frame
          .ok (r.2.2.1 * v.scale + st.padding.1 * 2,
               r.2.2.2 * v.scale + st.padding.2 * 2)

/-- `CameraViewport.updateFollow(view?)`: reset the offset when no view is
given; otherwise compute the sprite's world center and apply the configured
follow mode ('none' freezes the offset, 'center' centers the entity,
'deadzone' pans by the overshoot past the deadzone rectangle). -/
def updateFollow (st : CamState) (view : Option ViewModel) : Except String CamState :=
  match view with
  | none => .ok { st with camX := 0, camY := 0 }
  | some v => do
      let r ← frameRect v.actor.sheet v.actor.state.frame
      let w := r.2.2.1 * v.scale
      let h := r.2.2.2 * v.scale
      let centerX := if v.anchor = Anchor.center then v.actor.state.x
                     else v.actor.state.x + w / 2
      let centerY := if v.anchor = Anchor.center then v.actor.state.y
                     else v.actor.state.y + h / 2
      let s ← getLogicalSize st (some v)
      match st.follow with
      | .none => .ok st
      | .center =>
          .ok { st with camX := centerX - s.1 / 2, camY := centerY - s.2 / 2 }
      | .deadzone =>
          let dzx := st.deadzone.1
          let dzy := st.deadzone.2
          let vx := st.camX
          let vy := st.camY
          let vCenterX := vx + s.1 / 2
          let vCenterY := vy + s.2 / 2
          let vx := if centerX < vCenterX - dzx then vx - ((vCenterX - dzx) - centerX) else vx
          let vx := if centerX > vCenterX + dzx then vx + (centerX - (vCenterX + dzx)) else vx
          let vy := if centerY < vCenterY - dzy then vy - ((vCenterY - dzy) - centerY) else vy
          let vy := if centerY > vCenterY + dzy then vy + (centerY - (vCenterY + dzy)) else vy
          .ok { st with camX := vx, camY := vy }

/-! ## Helper lemmas -/

/-- Firing a channel-untouching callback `k` times leaves the channel state
unchanged and logs `k` fires of the action. -/
theorem fireN_noop (k : Nat) (idv : Nat) (st : ChanState) :
    fireN k .noop idv st = (st, List.replicate k idv) := by
  induction k generalizing st with
  | zero => rfl
  | succ k ih => simp [fireN, interp, ih, List.replicate_succ]

end Strike

namespace Strike

/-- C1: a periodic action with positive interval and `catchUp`, on a running
channel, with the tick making `elapsed + dt` reach the interval, fires
exactly `n = ⌊(elapsed + dt) / interval⌋` times and ends the tick with
`elapsed + dt - n * interval` accumulated. -/
theorem c1_catchup_fires_floor_times (nm : Option String) (idv nid : Nat)
    (e0 dt I : ℚ) (hI : 0 < I) (hdue : I ≤ e0 + dt) :
    step dt ⟨[⟨idv, nm, .every I true, e0, .noop⟩], true, nid⟩ =
      (⟨[⟨idv, nm, .every I true, e0 + dt - ⌊(e0 + dt) / I⌋ * I, .noop⟩], true, nid⟩,
       List.replicate (⌊(e0 + dt) / I⌋).toNat idv) := by
  simp only [step, stepFold, processOne, setElapsed, List.map, if_pos rfl,
    fireN_noop]
  rw [if_neg, if_neg (not_le.mpr hI), if_pos (by linarith : e0 + dt ≥ I)]
  · simp
  · simp

/-- Witness for C1 at the spec's own numbers: interval 200, `catchUp`,
one tick of `dt = 500` from `elapsed = 0` fires exactly twice and leaves
`elapsed = 100`. -/
theorem c1_catchup_witness :
    step 500 ⟨[⟨0, none, .every 200 true, 0, .noop⟩], true, 1⟩ =
      (⟨[⟨0, none, .every 200 true, 100, .noop⟩], true, 1⟩, [0, 0]) := by
  have h := c1_catchup_fires_floor_times none 0 1 0 500 200 (by norm_num)
    (by norm_num)
  have hfl : ⌊((0 : ℚ) + 500) / 200⌋ = 2 := by
    rw [Int.floor_eq_iff]; norm_num
  rw [hfl] at h
  norm_num at h
  exact h

/-- C5 (amended): a periodic action whose stored interval is 0, on a running
channel, fires exactly once per step; the step still adds `dt` to the
action's elapsed counter (the counter is neither consulted nor reset for
this entry, but it is not left untouched). -/
theorem c5_interval_zero_fires_once (nm : Option String) (idv nid : Nat)
    (cu : Bool) (e0 dt : ℚ) :
    step dt ⟨[⟨idv, nm, .every 0 cu, e0, .noop⟩], true, nid⟩ =
      (⟨[⟨idv, nm, .every 0 cu, e0 + dt, .noop⟩], true, nid⟩, [idv]) := by
  simp [step, stepFold, processOne, setElapsed, interp]

/-- C5 counterexample: for an interval-0 periodic action with `elapsed = 0`,
a step of `dt = 5` fires the callback exactly once but leaves the elapsed
counter at 5, not 0 — the accumulated-elapsed accounting is touched by the
step. -/
theorem c5_elapsed_is_touched :
    (step 5 ⟨[⟨0, none, .every 0 true, 0, .noop⟩], true, 1⟩).2.length = 1 ∧
    (step 5 ⟨[⟨0, none, .every 0 true, 0, .noop⟩], true, 1⟩).1.actions.map
        Scheduled.elapsed = [5] ∧
    ((5 : ℚ)) ≠ 0 := by
  refine ⟨?_, ?_, by norm_num⟩ <;>
    norm_num [step, stepFold, processOne, setElapsed, interp]

/-- C7 (amended): `cancel` with a non-empty name keeps exactly the actions
whose name differs from it and leaves the running flag unchanged; `cancel()`
with no argument removes all actions and leaves the running flag
unchanged. -/
theorem c7_cancel_by_name (s : String) (hs : s ≠ "") (st : ChanState) :
    (∀ a, a ∈ (cancelOp (some s) st).actions ↔ a ∈ st.actions ∧ a.name ≠ some s) ∧
    (cancelOp (some s) st).running = st.running ∧
    (cancelOp none st).actions = [] ∧
    (cancelOp none st).running = st.running := by
  refine ⟨fun a => ?_, ?_, rfl, rfl⟩ <;> simp [cancelOp, hs, List.mem_filter]

/-- Witness for C7: cancelling name `x` on a channel holding an action named
`x` and one named `y` keeps exactly the `y` action; a bare cancel empties
the channel; the running flag survives both. -/
theorem c7_cancel_witness :
    (∀ a, a ∈ (cancelOp (some "x")
        ⟨[⟨0, some "x", .once 10, 0, .noop⟩, ⟨1, some "y", .once 10, 0, .noop⟩],
         true, 2⟩).actions ↔
      a ∈ [⟨0, some "x", .once 10, 0, .noop⟩, ⟨1, some "y", .once 10, 0, Fn.noop⟩] ∧
        a.name ≠ some "x") ∧
    (cancelOp (some "x")
        ⟨[⟨0, some "x", .once 10, 0, .noop⟩, ⟨1, some "y", .once 10, 0, .noop⟩],
         true, 2⟩).running = true ∧
    (cancelOp none
        ⟨[⟨0, some "x", .once 10, 0, .noop⟩, ⟨1, some "y", .once 10, 0, .noop⟩],
         true, 2⟩).actions = [] ∧
    (cancelOp none
        ⟨[⟨0, some "x", .once 10, 0, .noop⟩, ⟨1, some "y", .once 10, 0, .noop⟩],
         true, 2⟩).running = true :=
  c7_cancel_by_name "x" (by simp)
    ⟨[⟨0, some "x", .once 10, 0, .noop⟩, ⟨1, some "y", .once 10, 0, .noop⟩], true, 2⟩

/-- C7 counterexample: `cancel('')` — a name is given, but the empty string
is falsy in JavaScript — removes an action named `x`, i.e. an action whose
name does not equal the given name. -/
theorem c7_empty_name_cancels_all :
    (cancelOp (some "") ⟨[⟨0, some "x", .once 10, 0, .noop⟩], true, 1⟩).actions
      = [] ∧ some "x" ≠ some "" :=
  ⟨by norm_num [cancelOp], by simp⟩

/-- A callback that performs no immediate registration produces no fire
events of its own. -/
theorem interp_noImm_silent (f : Fn) :
    ∀ st : ChanState, noImm f = true → (interp f st).2 = [] := by
  induction f with
  | noop => intro st _; rfl
  | cancel name => intro st _; rfl
  | every interval f name immediate catchUp ih =>
      intro st h
      simp only [noImm, Bool.and_eq_true, Bool.not_eq_true'] at h
      simp [interp, h.1, h.2, ih]
  | once delay f name ih => intro st _; rfl
  | seq a b iha ihb =>
      intro st h
      simp only [noImm, Bool.and_eq_true] at h
      simp [interp, iha _ h.1, ihb _ h.2]

/-- Firing a non-immediately-registering callback `k` times logs exactly
`k` fires of the owning action. -/
theorem fireN_noImm (k : Nat) (f : Fn) (idv : Nat) (h : noImm f = true) :
    ∀ st : ChanState, (fireN k f idv st).2 = List.replicate k idv := by
  induction k with
  | zero => intro st; rfl
  | succ k ih =>
      intro st
      simp [fireN, interp_noImm_silent f st h, ih, List.replicate_succ]

/-- Processing one snapshot item whose callback does no immediate
registration only logs fires of that item itself. -/
theorem processOne_events_eq_id (dt : ℚ) (a : Scheduled) (st : ChanState)
    (h : noImm a.fn = true) :
    ∀ x ∈ (processOne dt a st).2, x = a.id := by
  intro x hx
  match hk : a.kind with
  | .every interval catchUp =>
      simp only [processOne, hk] at hx
      split at hx
      · simp [interp_noImm_silent a.fn _ h] at hx
        exact hx
      · split at hx
        · split at hx
          · rw [fireN_noImm _ _ _ h] at hx
            exact List.eq_of_mem_replicate hx
          · simp [interp_noImm_silent a.fn _ h] at hx
            exact hx
        · simp at hx
  | .once delay =>
      simp only [processOne, hk] at hx
      split at hx
      · simp [interp_noImm_silent a.fn _ h] at hx
        exact hx
      · simp at hx

/-- The tick loop over a snapshot of non-immediately-registering actions
only fires actions of the snapshot. -/
theorem stepFold_events_subset (dt : ℚ) (l : List Scheduled)
    (hni : ∀ a ∈ l, noImm a.fn = true) :
    ∀ st : ChanState, ∀ x ∈ (stepFold dt l st).2, x ∈ l.map Scheduled.id := by
  induction l with
  | nil => intro st x hx; simp [stepFold] at hx
  | cons a rest ih =>
      intro st x hx
      simp only [stepFold, List.mem_append] at hx
      rcases hx with hx | hx
      · exact List.mem_map.mpr ⟨a, List.mem_cons_self a rest,
          (processOne_events_eq_id dt a st (hni a (List.mem_cons_self a rest)) x hx).symm⟩
      · have := ih (fun b hb => hni b (List.mem_cons_of_mem a hb)) _ x hx
        simpa using Or.inr (by simpa using this)

/-- Processing one one-shot snapshot item logs at most one fire of it. -/
theorem processOne_once_count (dt : ℚ) (a : Scheduled) (st : ChanState)
    (h : noImm a.fn = true) (d : ℚ) (hk : a.kind = .once d) :
    ((processOne dt a st).2.count a.id) ≤ 1 := by
  simp only [processOne, hk]
  split
  · simp [interp_noImm_silent a.fn _ h]
  · simp

/-- In one tick over a duplicate-free snapshot of
non-immediately-registering actions, a one-shot fires at most once. -/
theorem stepFold_once_count (dt : ℚ) (l : List Scheduled)
    (hni : ∀ a ∈ l, noImm a.fn = true) (hnd : (l.map Scheduled.id).Nodup) :
    ∀ st : ChanState, ∀ a ∈ l, ∀ d, a.kind = .once d →
      ((stepFold dt l st).2.count a.id) ≤ 1 := by
  induction l with
  | nil => intro st a ha; simp at ha
  | cons b rest ih =>
      intro st a ha d hk
      simp only [List.map_cons, List.nodup_cons] at hnd
      simp only [stepFold, List.count_append]
      rcases List.mem_cons.mp ha with rfl | ha
      · have h2 : ((stepFold dt rest ((processOne dt a st).1)).2.count a.id) = 0 := by
          rw [List.count_eq_zero]
          intro hmem
          exact hnd.1 (stepFold_events_subset dt rest
            (fun c hc => hni c (List.mem_cons_of_mem a hc)) _ _ hmem)
        rw [h2]
        simpa using processOne_once_count dt a st
          (hni a (List.mem_cons_self a rest)) d hk
      · have hne : a.id ≠ b.id := by
          intro he
          exact hnd.1 (he ▸ List.mem_map.mpr ⟨a, ha, rfl⟩)
        have h1 : ((processOne dt b st).2.count a.id) = 0 := by
          rw [List.count_eq_zero]
          intro hmem
          exact hne (processOne_events_eq_id dt b st
            (hni b (List.mem_cons_self b rest)) _ hmem)
        rw [h1]
        simpa using ih (fun c hc => hni c (List.mem_cons_of_mem b hc)) hnd.2 _ a ha d hk

/-- C4 (amended): `step` iterates over a snapshot of the actions present at
the start of the tick. Provided no callback uses an immediate registration
and the channel's action identities are duplicate-free: every fire of the
tick belongs to an action present at the start (actions scheduled
reentrantly during the tick do not fire that tick), and a one-shot action
fires at most once during the tick. (An action removed mid-tick by a
callback's cancel may nevertheless still fire later in the same tick — see
the counterexample.) -/
theorem c4_step_snapshot (dt : ℚ) (st : ChanState)
    (hni : ∀ a ∈ st.actions, noImm a.fn = true)
    (hnd : (st.actions.map Scheduled.id).Nodup) :
    (∀ x ∈ (step dt st).2, x ∈ st.actions.map Scheduled.id) ∧
    (∀ a ∈ st.actions, ∀ d, a.kind = .once d →
      ((step dt st).2.count a.id) ≤ 1) := by
  unfold step
  split
  · simp
  · exact ⟨stepFold_events_subset dt st.actions hni st,
      fun a ha d hk => stepFold_once_count dt st.actions hni hnd st a ha d hk⟩

/-- Witness for C4 at a concrete channel: one due one-shot plus one pending
periodic action; the tick's fires stay within the starting snapshot and the
one-shot fires at most once. -/
theorem c4_step_snapshot_witness :
    (∀ x ∈ (step 5 ⟨[⟨0, none, .once 0, 0, .noop⟩,
        ⟨1, none, .every 200 true, 0, .noop⟩], true, 2⟩).2,
      x ∈ [⟨0, none, .once 0, 0, .noop⟩,
        (⟨1, none, .every 200 true, 0, Fn.noop⟩ : Scheduled)].map Scheduled.id) ∧
    (∀ a ∈ [⟨0, none, .once 0, 0, .noop⟩,
        (⟨1, none, .every 200 true, 0, Fn.noop⟩ : Scheduled)], ∀ d,
      a.kind = .once d →
      ((step 5 ⟨[⟨0, none, .once 0, 0, .noop⟩,
          ⟨1, none, .every 200 true, 0, .noop⟩], true, 2⟩).2.count a.id) ≤ 1) :=
  c4_step_snapshot 5
    ⟨[⟨0, none, .once 0, 0, .noop⟩, ⟨1, none, .every 200 true, 0, .noop⟩], true, 2⟩
    (by
      intro a ha
      rcases List.mem_cons.mp ha with rfl | ha
      · rfl
      · rcases List.mem_cons.mp ha with rfl | ha
        · rfl
        · simp at ha)
    (by simp)

/-- C4 counterexample: two due one-shots; the first one's callback cancels
the second by name (`b`), yet the second still fires in the same tick — the
fire log of the step is `[0, 1]`, so the action with id 1 fired after having
been removed from the channel earlier in the tick. -/
theorem c4_canceled_action_still_fires :
    (step 1 ⟨[⟨0, none, .once 0, 0, .cancel (some "b")⟩,
        ⟨1, some "b", .once 0, 0, .noop⟩], true, 2⟩).2 = [0, 1] := by
  norm_num [step, stepFold, processOne, setElapsed, interp, cancelOp,
    removeFirstId]
  simp

/-- `onTickOp` leaves the listener list as the set-insertion of the handler
(no change when present, appended when absent). -/
theorem onTickOp_listeners (h : Nat) (b : Beh) (st : ClockState) :
    (onTickOp h b st).listeners =
      if h ∈ st.listeners then st.listeners else st.listeners ++ [h] := by
  simp only [onTickOp, scheduleRaf]
  split <;> rfl

/-- After `onTick` the module always holds a pending frame id. -/
theorem onTickOp_rafSet (h : Nat) (b : Beh) (st : ClockState) :
    (onTickOp h b st).rafSet = true := by
  simp only [onTickOp, scheduleRaf]
  split
  · rfl
  · rename_i hr
    simpa using hr

/-- The handler is registered after `onTick`. -/
theorem onTickOp_mem (h : Nat) (b : Beh) (st : ClockState) :
    h ∈ (onTickOp h b st).listeners := by
  rw [onTickOp_listeners]
  split
  · assumption
  · simp

/-- `onTick` keeps the listener list duplicate-free. -/
theorem onTickOp_nodup (h : Nat) (b : Beh) (st : ClockState)
    (hnd : st.listeners.Nodup) : (onTickOp h b st).listeners.Nodup := by
  rw [onTickOp_listeners]
  split
  · exact hnd
  · rename_i hm
    simpa [List.nodup_append] using ⟨hnd, hm⟩

/-- C9 (amended): the subscriber set has JavaScript `Set` semantics keyed on
function identity. Subscribing the same callback a second time leaves the
subscriber set unchanged (a single registration); the returned unsubscribe
closure removes the callback from the set; invoking it again after the
registration is gone is a no-op on the whole ticker state. -/
theorem c9_set_semantics (st : ClockState) (h : Nat) (b : Beh)
    (hnd : st.listeners.Nodup) :
    h ∈ (onTickOp h b st).listeners ∧
    (onTickOp h b (onTickOp h b st)).listeners = (onTickOp h b st).listeners ∧
    h ∉ (unsubOp h (onTickOp h b st)).listeners ∧
    unsubOp h (unsubOp h (onTickOp h b st)) = unsubOp h (onTickOp h b st) := by
  have hmem := onTickOp_mem h b st
  have hnd1 := onTickOp_nodup h b st hnd
  have herased : h ∉ (unsubOp h (onTickOp h b st)).listeners := by
    simpa [unsubOp] using hnd1.not_mem_erase
  refine ⟨hmem, ?_, herased, ?_⟩
  · rw [onTickOp_listeners]
    exact if_pos hmem
  · simp [unsubOp, List.erase_of_not_mem (by simpa [unsubOp] using herased)]

/-- Witness for C9 at the initial ticker state and handler 7. -/
theorem c9_set_semantics_witness :
    7 ∈ (onTickOp 7 .noop clockInit).listeners ∧
    (onTickOp 7 .noop (onTickOp 7 .noop clockInit)).listeners =
      (onTickOp 7 .noop clockInit).listeners ∧
    7 ∉ (unsubOp 7 (onTickOp 7 .noop clockInit)).listeners ∧
    unsubOp 7 (unsubOp 7 (onTickOp 7 .noop clockInit)) =
      unsubOp 7 (onTickOp 7 .noop clockInit) :=
  c9_set_semantics clockInit 7 .noop (by simp [clockInit])

/-- C9 counterexample: registering the same callback (function identity 7)
twice yields one registration, a single unsubscribe call empties the set,
and the callback is not invoked on the following pulse — there is no second
independent registration keeping it alive. -/
theorem c9_double_subscribe_is_single :
    (runTrace [.subH 7 .noop, .subH 7 .noop] clockInit).listeners = [7] ∧
    (runTrace [.subH 7 .noop, .subH 7 .noop, .unsubH 7] clockInit).listeners = [] ∧
    (runPulse 0 (runTrace [.subH 7 .noop, .subH 7 .noop, .unsubH 7]
        clockInit)).2.2 = [] := by
  refine ⟨?_, ?_, ?_⟩ <;>
    norm_num [runTrace, runOp, onTickOp, unsubOp, clockInit, scheduleRaf,
      runPulse, loopFold, invoke, interpBeh, jsTry, min_def]

/-- Every handler in the snapshot is invoked, in order, and no exception
escapes the loop, whatever the handlers do or throw. -/
theorem loopFold_all_invoked (dt acc : ℚ) (l : List Nat) :
    ∀ st : ClockState, (loopFold dt acc l st).2.1 = false ∧
      (loopFold dt acc l st).2.2.map Ev.h = l := by
  induction l with
  | nil => intro st; exact ⟨rfl, rfl⟩
  | cons h rest ih =>
      intro st
      simp only [loopFold, jsTry]
      have hinv : ∀ st' : ClockState, (invoke h dt acc st').2.2.map Ev.h = [h] := by
        intro st'
        unfold invoke
        split <;> rfl
      simp [hinv, (ih _).1, (ih _).2]

/-- No exception escapes the snapshot loop. -/
theorem loopFold_no_escape (dt acc : ℚ) (l : List Nat) (st : ClockState) :
    (loopFold dt acc l st).2.1 = false :=
  (loopFold_all_invoked dt acc l st).1

/-- The loop's invocation log lists exactly the snapshot, in order. -/
theorem loopFold_map_h (dt acc : ℚ) (l : List Nat) (st : ClockState) :
    (loopFold dt acc l st).2.2.map Ev.h = l :=
  (loopFold_all_invoked dt acc l st).2

/-- C8: during a pulse, whatever the subscriber callbacks do or throw, no
exception escapes the pulse, every callback of the pulse's snapshot is
invoked (in order), and if subscribers remain after the callbacks ran, the
next frame pulse is scheduled. -/
theorem c8_pulse_isolation (ts : ℚ) (st : ClockState) :
    (runPulse ts st).2.1 = false ∧
    (runPulse ts st).2.2.map Ev.h = st.listeners ∧
    ((runPulse ts st).1.listeners ≠ [] →
      (runPulse ts st).1.rafSet = true ∧ 1 ≤ (runPulse ts st).1.pending) := by
  by_cases he : st.listeners = []
  · simp [runPulse, he, scheduleRaf]
  · simp only [runPulse, he, ne_eq, not_false_eq_true, if_true]
    refine ⟨?_, ?_, ?_⟩
    · split
      · simp [loopFold_no_escape]
      · simp [loopFold_no_escape]
    · split
      · simp [loopFold_map_h]
      · simp [loopFold_map_h]
    · split
      · rename_i hcond
        intro hne
        simp [scheduleRaf]
      · rename_i hcond
        intro hne
        simp at hcond
        simp [hcond] at hne

/-- Witness for C8: a subscriber that throws (handler 3) followed by a well
behaved one (handler 4); the pulse swallows the exception, still invokes
both handlers in snapshot order, and schedules the next frame. -/
theorem c8_pulse_isolation_witness :
    (runPulse 0 (runTrace [.subH 3 .throwErr, .subH 4 .noop] clockInit)).2.1
      = false ∧
    (runPulse 0 (runTrace [.subH 3 .throwErr, .subH 4 .noop]
        clockInit)).2.2.map Ev.h = [3, 4] ∧
    (runPulse 0 (runTrace [.subH 3 .throwErr, .subH 4 .noop]
        clockInit)).1.rafSet = true ∧
    1 ≤ (runPulse 0 (runTrace [.subH 3 .throwErr, .subH 4 .noop]
        clockInit)).1.pending := by
  have h := c8_pulse_isolation 0 (runTrace [.subH 3 .throwErr, .subH 4 .noop]
    clockInit)
  have hl : (runTrace [.subH 3 .throwErr, .subH 4 .noop] clockInit).listeners
      = [3, 4] := by
    norm_num [runTrace, runOp, onTickOp, clockInit, scheduleRaf]
  rw [hl] at h
  have hfin : (runPulse 0 (runTrace [.subH 3 .throwErr, .subH 4 .noop]
      clockInit)).1.listeners ≠ [] := by
    norm_num [runPulse, runTrace, runOp, onTickOp, clockInit, scheduleRaf,
      loopFold, invoke, interpBeh, jsTry, min_def, List.lookup]
    simp [interpBeh]
  exact ⟨h.1, h.2.1, (h.2.2 hfin).1, (h.2.2 hfin).2⟩

/-- `onTick` never writes the timing fields. -/
theorem onTickOp_lastTs (h : Nat) (b : Beh) (st : ClockState) :
    (onTickOp h b st).lastTs = st.lastTs := by
  simp only [onTickOp, scheduleRaf]
  split <;> rfl

/-- Subscriber behaviors never write the timestamp baseline. -/
theorem interpBeh_lastTs (b : Beh) :
    ∀ st : ClockState, (interpBeh b st).1.lastTs = st.lastTs := by
  induction b with
  | noop => intro st; rfl
  | throwErr => intro st; rfl
  | subscribe b ih => intro st; exact onTickOp_lastTs _ _ _
  | unsub h => intro st; rfl
  | seq a b iha ihb =>
      intro st
      simp only [interpBeh]
      split
      · exact iha st
      · rw [ihb, iha]

/-- One callback invocation never writes the timestamp baseline. -/
theorem invoke_lastTs (h : Nat) (dt acc : ℚ) (st : ClockState) :
    (invoke h dt acc st).1.lastTs = st.lastTs := by
  unfold invoke
  split
  · exact interpBeh_lastTs _ _
  · rfl

/-- The snapshot loop never writes the timestamp baseline. -/
theorem loopFold_lastTs (dt acc : ℚ) (l : List Nat) :
    ∀ st : ClockState, (loopFold dt acc l st).1.lastTs = st.lastTs := by
  induction l with
  | nil => intro st; rfl
  | cons h rest ih =>
      intro st
      simp only [loopFold, jsTry]
      simp [ih, invoke_lastTs]

/-- One invocation's event record. -/
theorem invoke_ev (h : Nat) (dt acc : ℚ) (st : ClockState) :
    (invoke h dt acc st).2.2 = [⟨h, dt, acc⟩] := by
  unfold invoke
  split <;> rfl

/-- Every event of the snapshot loop carries the loop's delta argument. -/
theorem loopFold_dts (dt acc : ℚ) (l : List Nat) :
    ∀ st : ClockState, ∀ ev ∈ (loopFold dt acc l st).2.2, ev.dt = dt := by
  induction l with
  | nil => intro st ev hev; simp [loopFold] at hev
  | cons h rest ih =>
      intro st ev hev
      simp only [loopFold, jsTry] at hev
      simp only [if_neg (by simp : ¬(false = true)), List.mem_append,
        invoke_ev] at hev
      rcases hev with hev | hev
      · simp at hev
        subst hev
        rfl
      · exact ih _ ev hev

/-- Every delta delivered during one pulse equals
`min (ts - lastTs.getD ts) 100`. -/
theorem runPulse_dts (ts : ℚ) (st : ClockState) :
    ∀ ev ∈ (runPulse ts st).2.2, ev.dt = min (ts - st.lastTs.getD ts) 100 := by
  by_cases he : st.listeners = []
  · simp [runPulse, he, scheduleRaf]
  · simp only [runPulse, he, ne_eq, not_false_eq_true, if_true]
    intro ev hev
    split at hev <;> exact loopFold_dts _ _ _ _ ev hev

/-- After a pulse, the timestamp baseline is either the pulse's timestamp or
reset to idle. -/
theorem runPulse_lastTs_out (ts : ℚ) (st : ClockState) :
    (runPulse ts st).1.lastTs = some ts ∨ (runPulse ts st).1.lastTs = none := by
  by_cases he : st.listeners = []
  · simp [runPulse, he, scheduleRaf]
  · simp only [runPulse, he, ne_eq, not_false_eq_true, if_true]
    split
    · left
      simpa [scheduleRaf] using loopFold_lastTs _ _ _ _
    · right
      rfl

/-- The deltas of one pulse lie in `[0, 100]` whenever the recorded baseline
does not exceed the pulse timestamp. -/
theorem runPulse_dt_bounds (ts : ℚ) (st : ClockState)
    (hts : ∀ t, st.lastTs = some t → t ≤ ts) :
    ∀ ev ∈ (runPulse ts st).2.2, 0 ≤ ev.dt ∧ ev.dt ≤ 100 := by
  intro ev hev
  rw [runPulse_dts ts st ev hev]
  rcases hl : st.lastTs with _ | t
  · simp
  · have ht := hts t hl
    simp only [hl, Option.getD_some]
    exact ⟨le_min (by linarith) (by norm_num), min_le_right _ _⟩

/-- Over a nondecreasing pulse-timestamp sequence, starting from a state
whose baseline does not exceed the first timestamp, every delivered delta
lies in `[0, 100]`. -/
theorem runPulses_dt_bounds (tss : List ℚ) :
    ∀ st : ClockState, List.Chain' (· ≤ ·) tss →
      (∀ t, st.lastTs = some t → ∀ ts0 ∈ tss.head?, t ≤ ts0) →
      ∀ ev ∈ (runPulses tss st).2, 0 ≤ ev.dt ∧ ev.dt ≤ 100 := by
  induction tss with
  | nil => intro st _ _ ev hev; simp [runPulses] at hev
  | cons ts rest ih =>
      intro st hch hbase ev hev
      simp only [runPulses] at hev
      rcases List.mem_append.mp hev with hev | hev
      · exact runPulse_dt_bounds ts st (fun t ht => hbase t ht ts (by simp))
          ev hev
      · have hch' := List.chain'_cons'.mp hch
        refine ih (runPulse ts st).1 hch'.2 ?_ ev hev
        intro t ht ts0 hts0
        rcases runPulse_lastTs_out ts st with hout | hout
        · rw [hout] at ht
          injection ht with ht
          subst ht
          exact hch'.1 ts0 hts0
        · rw [hout] at ht
          cases ht

/-- C2 (amended): starting from an idle clock, for every nondecreasing
sequence of pulse timestamps, every delta delivered to subscribers lies in
`[0, 100]` — however large the raw gaps are — and the first pulse after idle
delivers a delta of exactly 0. (For a timestamp sequence that goes
backwards the clamp only caps the maximum, so negative deltas escape — see
the counterexample.) -/
theorem c2_deltas_clamped :
    (∀ (tss : List ℚ) (st : ClockState), st.lastTs = none →
      List.Chain' (· ≤ ·) tss →
      ∀ ev ∈ (runPulses tss st).2, 0 ≤ ev.dt ∧ ev.dt ≤ 100) ∧
    (∀ (ts : ℚ) (st : ClockState), st.lastTs = none →
      ∀ ev ∈ (runPulse ts st).2.2, ev.dt = 0) := by
  constructor
  · intro tss st hnone hch ev hev
    refine runPulses_dt_bounds tss st hch ?_ ev hev
    intro t ht
    rw [hnone] at ht
    cases ht
  · intro ts st hnone ev hev
    have hd := runPulse_dts ts st ev hev
    rw [hnone] at hd
    simpa using hd

/-- Witness for C2: one subscriber, pulses at 100 then 5100 (a 5000 ms raw
gap): both deltas stay in `[0, 100]`; and the first pulse from idle delivers
delta 0. -/
theorem c2_deltas_clamped_witness :
    (∀ ev ∈ (runPulses [100, 5100] (onTickOp 0 .noop clockInit)).2,
      0 ≤ ev.dt ∧ ev.dt ≤ 100) ∧
    (∀ ev ∈ (runPulse 100 (onTickOp 0 .noop clockInit)).2.2, ev.dt = 0) :=
  ⟨c2_deltas_clamped.1 [100, 5100] (onTickOp 0 .noop clockInit)
      (onTickOp_lastTs 0 .noop clockInit)
      (by rw [List.chain'_cons]; norm_num),
    c2_deltas_clamped.2 100 (onTickOp 0 .noop clockInit)
      (onTickOp_lastTs 0 .noop clockInit)⟩

/-- C2 counterexample: with one subscriber and raw timestamps going from 100
back to 50, the second delivered delta is −50, outside `[0, 100]` — the
clamp caps only the maximum. -/
theorem c2_negative_delta :
    (runPulses [100, 50] (onTickOp 0 .noop clockInit)).2.map Ev.dt
      = [0, -50] ∧ ¬ (0 : ℚ) ≤ -50 := by
  constructor
  · norm_num [runPulses, runPulse, onTickOp, clockInit, scheduleRaf,
      loopFold, invoke, interpBeh, jsTry, min_def, List.lookup]
  · norm_num

/-- `onTick` preserves "a held frame id is backed by a queued pulse" and
never dequeues a pulse. -/
theorem onTickOp_Q (h : Nat) (b : Beh) (st : ClockState)
    (hQ : st.rafSet = true → 1 ≤ st.pending) :
    ((onTickOp h b st).rafSet = true → 1 ≤ (onTickOp h b st).pending) ∧
      st.pending ≤ (onTickOp h b st).pending := by
  simp only [onTickOp, scheduleRaf]
  split
  · dsimp only
    exact ⟨fun _ => by omega, by omega⟩
  · rename_i hr
    exact ⟨fun _ => hQ (by simpa using hr), le_refl _⟩

/-- Subscriber behaviors preserve "a held frame id is backed by a queued
pulse" and never dequeue a pulse. -/
theorem interpBeh_Q (b : Beh) :
    ∀ st : ClockState, (st.rafSet = true → 1 ≤ st.pending) →
      (((interpBeh b st).1.rafSet = true → 1 ≤ (interpBeh b st).1.pending) ∧
        st.pending ≤ (interpBeh b st).1.pending) := by
  induction b with
  | noop => intro st hQ; exact ⟨hQ, le_refl _⟩
  | throwErr => intro st hQ; exact ⟨hQ, le_refl _⟩
  | subscribe b ih => intro st hQ; exact onTickOp_Q _ _ _ hQ
  | unsub h => intro st hQ; exact ⟨hQ, le_refl _⟩
  | seq a b iha ihb =>
      intro st hQ
      simp only [interpBeh]
      split
      · exact iha st hQ
      · have h1 := iha st hQ
        have h2 := ihb _ h1.1
        exact ⟨h2.1, le_trans h1.2 h2.2⟩

/-- One callback invocation preserves the queued-pulse backing. -/
theorem invoke_Q (h : Nat) (dt acc : ℚ) (st : ClockState)
    (hQ : st.rafSet = true → 1 ≤ st.pending) :
    ((invoke h dt acc st).1.rafSet = true → 1 ≤ (invoke h dt acc st).1.pending) ∧
      st.pending ≤ (invoke h dt acc st).1.pending := by
  unfold invoke
  split
  · exact interpBeh_Q _ _ hQ
  · exact ⟨hQ, le_refl _⟩

/-- The snapshot loop preserves the queued-pulse backing. -/
theorem loopFold_Q (dt acc : ℚ) (l : List Nat) :
    ∀ st : ClockState, (st.rafSet = true → 1 ≤ st.pending) →
      ((loopFold dt acc l st).1.rafSet = true →
        1 ≤ (loopFold dt acc l st).1.pending) := by
  induction l with
  | nil => intro st hQ; exact hQ
  | cons h rest ih =>
      intro st hQ
      simp only [loopFold, jsTry, if_neg (by simp : ¬(false = true))]
      exact ih _ (invoke_Q h dt acc st hQ).1

/-- Invariant of every reachable ticker state: a non-empty subscriber set
implies a held frame id, and a held frame id implies at least one queued
pulse. -/
theorem clockReach_P (st : ClockState) (hr : ClockReach st) :
    (st.listeners ≠ [] → st.rafSet = true) ∧
      (st.rafSet = true → 1 ≤ st.pending) := by
  induction hr with
  | init => simp [clockInit]
  | next op st' hr' ih =>
      cases op with
      | subH h b =>
          refine ⟨fun _ => onTickOp_rafSet h b st', fun _ => ?_⟩
          exact (onTickOp_Q h b st' ih.2).1 (onTickOp_rafSet h b st')
      | unsubH h =>
          refine ⟨fun hne => ih.1 fun hemp => ?_, ih.2⟩
          simp only [runOp, unsubOp, hemp, List.erase_nil] at hne
          exact hne rfl
      | pulse ts =>
          show ((runPulse ts st').1.listeners ≠ [] →
              (runPulse ts st').1.rafSet = true) ∧
            ((runPulse ts st').1.rafSet = true → 1 ≤ (runPulse ts st').1.pending)
          by_cases he : st'.listeners = []
          · simp [runPulse, he, scheduleRaf]
          · simp only [runPulse, he, ne_eq, not_false_eq_true, if_true]
            split
            · refine ⟨fun _ => rfl, fun _ => ?_⟩
              simp [scheduleRaf]
            · rename_i hcond
              simp only [ne_eq, not_not] at hcond
              refine ⟨fun hne => absurd hcond hne, fun hraf => ?_⟩
              exact loopFold_Q _ _ _ _ (fun hh => by simp at hh) hraf

/-- C3 (amended): in every reachable ticker state, a non-empty subscriber
set guarantees at least one pending pulse. ("Exactly one" and "zero when
empty" both fail: unsubscribing the last subscriber leaves the scheduled
pulse queued, and a reentrant subscription during a pulse leads to two
queued pulses — see the counterexample.) -/
theorem c3_nonempty_has_pending (st : ClockState) (hr : ClockReach st)
    (hne : st.listeners ≠ []) : 1 ≤ st.pending :=
  (clockReach_P st hr).2 ((clockReach_P st hr).1 hne)

/-- Witness for C3 at the state reached by a single subscription. -/
theorem c3_nonempty_has_pending_witness :
    1 ≤ (runOp (.subH 0 .noop) clockInit).pending :=
  c3_nonempty_has_pending (runOp (.subH 0 .noop) clockInit)
    (ClockReach.next (.subH 0 .noop) clockInit ClockReach.init)
    (by simp [runOp, onTickOp, clockInit, scheduleRaf])

/-- C3 counterexample: (a) subscribing then immediately unsubscribing leaves
an empty subscriber set with one queued pulse (not zero); (b) a subscriber
whose callback subscribes another handler during the pulse leaves two queued
pulses (not one) with a non-empty subscriber set. -/
theorem c3_pending_count_cex :
    ((runTrace [.subH 0 .noop, .unsubH 0] clockInit).listeners = [] ∧
      (runTrace [.subH 0 .noop, .unsubH 0] clockInit).pending = 1) ∧
    ((runTrace [.subH 5 (.subscribe .noop), .pulse 0] clockInit).listeners
        = [5, 0] ∧
      (runTrace [.subH 5 (.subscribe .noop), .pulse 0] clockInit).pending
        = 2) := by
  constructor
  · constructor <;>
      norm_num [runTrace, runOp, onTickOp, unsubOp, clockInit, scheduleRaf]
  · constructor <;>
    · norm_num [runTrace, runOp, onTickOp, unsubOp, clockInit, scheduleRaf,
        runPulse, loopFold, invoke, interpBeh, jsTry, min_def, List.lookup]
      simp

/-- C10: with follow mode 'none', `updateFollow` with no view still resets
the stored world offset to the origin — the no-view reset is checked before
the follow-mode dispatch, so it takes precedence over the 'none' freeze. -/
theorem c10_no_view_resets_offset (st : CamState)
    (_hf : st.follow = FollowMode.none) :
    updateFollow st none = .ok { st with camX := 0, camY := 0 } := rfl

/-- Witness for C10 at a camera frozen in 'none' mode with a nonzero stored
offset. -/
theorem c10_no_view_resets_offset_witness :
    updateFollow ⟨FollowMode.none, (0, 0), (0, 0), none, 5, 7⟩ none =
      .ok ⟨FollowMode.none, (0, 0), (0, 0), none, 0, 0⟩ :=
  c10_no_view_resets_offset ⟨FollowMode.none, (0, 0), (0, 0), none, 5, 7⟩ rfl

/-- C6: in deadzone mode with nonnegative half-extents `(dzx, dzy)`, given
the entity's computed center `(cx, cy)` and the current viewport center
`(vcx, vcy)`, `updateFollow` leaves the stored offset unchanged when the
center lies inside the closed deadzone rectangle, and otherwise shifts each
axis by exactly the overshoot past the nearer deadzone edge; all other
camera fields are untouched. -/
theorem c6_deadzone_overshoot (st : CamState) (v : ViewModel)
    (r : ℚ × ℚ × ℚ × ℚ) (vw vh cx cy vcx vcy dzx dzy : ℚ)
    (hf : st.follow = .deadzone)
    (hdz : st.deadzone = (dzx, dzy))
    (hdx : 0 ≤ dzx) (hdy : 0 ≤ dzy)
    (hr : frameRect v.actor.sheet v.actor.state.frame = .ok r)
    (hs : getLogicalSize st (some v) = .ok (vw, vh))
    (hcx : cx = (if v.anchor = Anchor.center then v.actor.state.x
      else v.actor.state.x + r.2.2.1 * v.scale / 2))
    (hcy : cy = (if v.anchor = Anchor.center then v.actor.state.y
      else v.actor.state.y + r.2.2.2 * v.scale / 2))
    (hvcx : vcx = st.camX + vw / 2) (hvcy : vcy = st.camY + vh / 2) :
    ∃ st', updateFollow st (some v) = .ok st' ∧
      st'.follow = st.follow ∧ st'.deadzone = st.deadzone ∧
      st'.padding = st.padding ∧ st'.baseSize = st.baseSize ∧
      ((|cx - vcx| ≤ dzx ∧ |cy - vcy| ≤ dzy) → st' = st) ∧
      (|cx - vcx| ≤ dzx → st'.camX = st.camX) ∧
      (vcx + dzx < cx → st'.camX = st.camX + (cx - (vcx + dzx))) ∧
      (cx < vcx - dzx → st'.camX = st.camX - ((vcx - dzx) - cx)) ∧
      (|cy - vcy| ≤ dzy → st'.camY = st.camY) ∧
      (vcy + dzy < cy → st'.camY = st.camY + (cy - (vcy + dzy))) ∧
      (cy < vcy - dzy → st'.camY = st.camY - ((vcy - dzy) - cy)) := by
  have hdz1 : st.deadzone.1 = dzx := by rw [hdz]
  have hdz2 : st.deadzone.2 = dzy := by rw [hdz]
  simp only [updateFollow, hr, hs, hf, bind, Except.bind, hdz1, hdz2,
    ← hcx, ← hcy, ← hvcx, ← hvcy]
  refine ⟨_, rfl, rfl, rfl, rfl, rfl, ?_, ?_, ?_, ?_, ?_, ?_, ?_⟩
  · rintro ⟨h1, h2⟩
    rcases abs_le.mp h1 with ⟨hx1, hx2⟩
    rcases abs_le.mp h2 with ⟨hy1, hy2⟩
    rw [if_neg (by linarith : ¬ cx > vcx + dzx),
      if_neg (by linarith : ¬ cx < vcx - dzx),
      if_neg (by linarith : ¬ cy > vcy + dzy),
      if_neg (by linarith : ¬ cy < vcy - dzy)]
    cases st
    dsimp only at hf
    rw [hf]
  · intro h1
    rcases abs_le.mp h1 with ⟨hx1, hx2⟩
    dsimp only
    rw [if_neg (by linarith : ¬ cx > vcx + dzx),
      if_neg (by linarith : ¬ cx < vcx - dzx)]
  · intro hxx
    dsimp only
    rw [if_pos (by linarith : cx > vcx + dzx),
      if_neg (by linarith : ¬ cx < vcx - dzx)]
  · intro hxx
    dsimp only
    rw [if_neg (by linarith : ¬ cx > vcx + dzx), if_pos hxx]
  · intro h2
    rcases abs_le.mp h2 with ⟨hy1, hy2⟩
    dsimp only
    rw [if_neg (by linarith : ¬ cy > vcy + dzy),
      if_neg (by linarith : ¬ cy < vcy - dzy)]
  · intro hyy
    dsimp only
    rw [if_pos (by linarith : cy > vcy + dzy),
      if_neg (by linarith : ¬ cy < vcy - dzy)]
  · intro hyy
    dsimp only
    rw [if_neg (by linarith : ¬ cy > vcy + dzy), if_pos hyy]

/-- Witness for C6 at the spec's own numbers: base size 40×40 with stored
offset (80, 80), so the viewport center is (100, 100) and the deadzone
half-extents are (20, 20). An entity centered at (110, 105) leaves the
camera untouched; an entity centered at (125, 100) shifts the x offset by
exactly 5 (to 85) and leaves y at 80. -/
theorem c6_deadzone_overshoot_witness :
    (∃ s, updateFollow ⟨.deadzone, (20, 20), (0, 0), some (40, 40), 80, 80⟩
        (some ⟨⟨⟨some (10, 10), 1, none, none, none⟩, ⟨110, 105, 0⟩⟩, 1,
          .center⟩) = .ok s ∧
      s = ⟨.deadzone, (20, 20), (0, 0), some (40, 40), 80, 80⟩) ∧
    (∃ s, updateFollow ⟨.deadzone, (20, 20), (0, 0), some (40, 40), 80, 80⟩
        (some ⟨⟨⟨some (10, 10), 1, none, none, none⟩, ⟨125, 100, 0⟩⟩, 1,
          .center⟩) = .ok s ∧
      s.camX = 85 ∧ s.camY = 80) := by
  have hr1 : frameRect (⟨some (10, 10), 1, none, none, none⟩ : SheetMeta) 0
      = .ok (0, 0, 10, 10) := by
    norm_num [frameRect, ensureFrameSize, frameSizeValid, jsMod, ratTrunc,
      toInt32, bind, Except.bind]
  constructor
  · obtain ⟨s, hok, hfol, hdz', hpad, hbase, hin, hxin, hxhi, hxlo, hyin,
        hyhi, hylo⟩ :=
      c6_deadzone_overshoot ⟨.deadzone, (20, 20), (0, 0), some (40, 40), 80, 80⟩
        ⟨⟨⟨some (10, 10), 1, none, none, none⟩, ⟨110, 105, 0⟩⟩, 1, .center⟩
        (0, 0, 10, 10) 40 40 110 105 100 100 20 20 rfl rfl (by norm_num)
        (by norm_num) hr1 rfl (by norm_num) (by norm_num) (by norm_num)
        (by norm_num)
    exact ⟨s, hok, hin ⟨by norm_num, by norm_num⟩⟩
  · obtain ⟨s, hok, hfol, hdz', hpad, hbase, hin, hxin, hxhi, hxlo, hyin,
        hyhi, hylo⟩ :=
      c6_deadzone_overshoot ⟨.deadzone, (20, 20), (0, 0), some (40, 40), 80, 80⟩
        ⟨⟨⟨some (10, 10), 1, none, none, none⟩, ⟨125, 100, 0⟩⟩, 1, .center⟩
        (0, 0, 10, 10) 40 40 125 100 100 100 20 20 rfl rfl (by norm_num)
        (by norm_num) hr1 rfl (by norm_num) (by norm_num) (by norm_num)
        (by norm_num)
    refine ⟨s, hok, ?_, ?_⟩
    · rw [hxhi (by norm_num)]
      norm_num
    · exact hyin (by norm_num)

end Strike
